import Mathlib

/-!
Shallow embedding of the webpage-change-monitor application (`app.py`).

Modelling conventions:
* Python strings are modelled as `List Char` where character-level reasoning
  is needed (normalized page text), and as Lean `String` elsewhere (URLs,
  hashes, messages, timestamps).
* A fetched document after HTML parsing is modelled as the document-order
  sequence of its text fragments (`Doc`): `get_text` of the HTML parser
  depends only on this sequence, so the tree structure is abstracted away.
* The SHA-256 digest (`compute_hash`) is treated as a parameter
  `hash : List Char → String`; no claim depends on the internals of SHA-256.
* The network (`requests.get` inside `fetch_page`) is a parameter
  `fetchf : String → Except String Doc`: for each URL it either yields the
  parsed document or fails with the exception's string description.
* The SQLite store is a `Store` value: the `sites` table and the `checks`
  table as lists of rows; SQL statements become list transformations.
* `datetime.utcnow().isoformat()` is abstracted as a timestamp parameter
  `now : String`; no claim depends on distinct per-check timestamps.
-/

/-- Whitespace characters recognised by Python's `str.split()` / `str.strip()`
(restricted to the ASCII range, which is what page text claims exercise). -/
def pySpace (c : Char) : Bool :=
  c = ' ' || c = '\t' || c = '\n' || c = '\r' || c = '\x0b' || c = '\x0c'

/-- Python `text.split()` (no separator argument): the list of maximal runs of
non-whitespace characters, in order; leading/trailing/repeated whitespace
produces no empty pieces. -/
def splitW : List Char → List (List Char)
  | [] => []
  | c :: cs =>
    if pySpace c then splitW cs
    else
      match cs with
      | [] => [[c]]
      | d :: _ =>
        if pySpace d then [c] :: splitW cs
        else
          match splitW cs with
          | [] => [[c]]
          | w :: ws => (c :: w) :: ws

/-- Python `" ".join(pieces)`: concatenate with a single space between
consecutive pieces. -/
def joinSep : List (List Char) → List Char
  | [] => []
  | [w] => w
  | w :: ws => w ++ ' ' :: joinSep ws

/-- Python `s.strip()`: drop leading and trailing whitespace. -/
def pyStrip (s : List Char) : List Char :=
  ((s.dropWhile pySpace).reverse.dropWhile pySpace).reverse

/-- `s.strip()` on Lean `String`s (used for URLs and descriptions). -/
def pyStripS (s : String) : String :=
  ⟨pyStrip s.data⟩

/-- A fetched document after parsing: the document-order sequence of its text
fragments (the HTML parser's text nodes).  `get_text` depends only on this
sequence.  A markup-free document is a single fragment. -/
abbrev Doc := List (List Char)

/-- `soup.get_text(separator=" ", strip=True)`: strip every text fragment,
drop the ones that strip to nothing, and join the rest with single spaces. -/
def get_text (doc : Doc) : List Char :=
  joinSep ((doc.map pyStrip).filter (fun w => !w.isEmpty))

/-- `normalize_html` from the source: extract visible text with `get_text`,
then `" ".join(text.split())` — collapse all whitespace runs to single spaces
and trim the ends. -/
def normalize_html (doc : Doc) : List Char :=
  joinSep (splitW (get_text doc))

/-- A row of the `sites` table. -/
structure Site where
  id : Nat
  url : String
  description : Option String
  last_hash : Option String
  enabled : Bool
  created_at : String
deriving Repr, DecidableEq

/-- A row of the `checks` table. -/
structure CheckRecord where
  site_id : Nat
  checked_at : String
  changed : Bool
  error : Option String
deriving Repr, DecidableEq

/-- The SQLite database: both tables, rows in insertion order. -/
structure Store where
  sites : List Site
  checks : List CheckRecord
deriving Repr, DecidableEq

/-- Python truthiness of an optional string (`None` and `""` are falsy). -/
def pyTruthyStrOpt : Option String → Bool
  | none => false
  | some s => !(s == "")

/-- Python `a or b` for an optional string `a` (used for `description or url`). -/
def pyOrStr (a : Option String) (b : String) : String :=
  match a with
  | some s => if s = "" then b else s
  | none => b

/-- `UPDATE sites SET last_hash = ? WHERE id = ?`. -/
def update_last_hash (sites : List Site) (sid : Nat) (h : String) : List Site :=
  sites.map fun s => if s.id = sid then { s with last_hash := some h } else s

/-- `check_site(site_row)` from the source.  On a successful fetch it
normalizes, hashes, computes `changed` (always `false` with no prior hash),
overwrites the site's `last_hash` and appends a success record; on a fetch
failure it only appends a failure record.  Returns
`(changed, error, new_hash)` paired with the updated store. -/
def check_site (hash : List Char → String) (fetchf : String → Except String Doc)
    (now : String) (st : Store) (site : Site) :
    (Bool × Option String × Option String) × Store :=
  match fetchf site.url with
  | .ok doc =>
    let new_hash := hash (normalize_html doc)
    let changed :=
      match site.last_hash with
      | none => false
      | some h => decide (new_hash ≠ h)
    ((changed, none, some new_hash),
     { sites := update_last_hash st.sites site.id new_hash,
       checks := st.checks ++ [⟨site.id, now, changed, none⟩] })
  | .error e =>
    ((false, some e, none),
     { st with checks := st.checks ++ [⟨site.id, now, false, some e⟩] })

/-- The `(changed, error, new_hash)` triple `check_site` computes for one
site row; it depends only on the row and the fetch outcome, not on the store. -/
def site_outcome (hash : List Char → String) (fetchf : String → Except String Doc)
    (site : Site) : Bool × Option String × Option String :=
  match fetchf site.url with
  | .ok doc =>
    let new_hash := hash (normalize_html doc)
    let changed :=
      match site.last_hash with
      | none => false
      | some h => decide (new_hash ≠ h)
    (changed, none, some new_hash)
  | .error e => (false, some e, none)

/-- The notification message `run_all_checks` builds for a changed site. -/
def changed_message (site : Site) : String :=
  "🔔 Website changed:\n" ++ pyOrStr site.description site.url ++ "\n" ++ site.url

/-- Observable events of a batch run, in program order: the per-site database
commit performed inside `check_site`, and each call of the notifier
(`send_telegram_message`) attributed to the site whose loop iteration made it. -/
inductive Event where
  | committed (site_id : Nat)
  | notified (site_id : Nat) (message : String)
deriving Repr, DecidableEq

/-- The loop body of `run_all_checks` over an already-taken snapshot of site
rows: check each site, notify on change, collect
`(site_id, url, changed, error)` results.  Also returns the event trace. -/
def run_loop (hash : List Char → String) (fetchf : String → Except String Doc)
    (now : String) : List Site → Store →
    List (Nat × String × Bool × Option String) × Store × List Event
  | [], st => ([], st, [])
  | site :: rest, st =>
    let r := check_site hash fetchf now st site
    let changed := r.1.1
    let error := r.1.2.1
    let evs :=
      if changed then
        [Event.committed site.id, Event.notified site.id (changed_message site)]
      else
        [Event.committed site.id]
    let rec_ := run_loop hash fetchf now rest r.2
    ((site.id, site.url, changed, error) :: rec_.1, rec_.2.1, evs ++ rec_.2.2)

/-- `run_all_checks()` from the source: snapshot the enabled sites
(`SELECT ... WHERE enabled = 1`), then run the loop. -/
def run_all_checks (hash : List Char → String) (fetchf : String → Except String Doc)
    (now : String) (st : Store) :
    List (Nat × String × Bool × Option String) × Store × List Event :=
  run_loop hash fetchf now (st.sites.filter (·.enabled)) st

/-- The check record `check_site` appends for one site row. -/
def record_of (hash : List Char → String) (fetchf : String → Except String Doc)
    (now : String) (site : Site) : CheckRecord :=
  ⟨site.id, now, (site_outcome hash fetchf site).1, (site_outcome hash fetchf site).2.1⟩

/-- The `(site_id, url, changed, error)` result entry `run_all_checks`
produces for one site row. -/
def result_of (hash : List Char → String) (fetchf : String → Except String Doc)
    (site : Site) : Nat × String × Bool × Option String :=
  (site.id, site.url, (site_outcome hash fetchf site).1, (site_outcome hash fetchf site).2.1)

/-- The event-trace block one loop iteration of `run_all_checks` emits. -/
def events_of (hash : List Char → String) (fetchf : String → Except String Doc)
    (site : Site) : List Event :=
  Event.committed site.id ::
    (if (site_outcome hash fetchf site).1 then
      [Event.notified site.id (changed_message site)]
    else [])

/-- Effect of one site's check on one stored site row: a successful check of
`t` sets `last_hash` on rows whose id matches `t.id`; a failed check touches
nothing. -/
def single_update (hash : List Char → String) (fetchf : String → Except String Doc)
    (t : Site) (s : Site) : Site :=
  match fetchf t.url with
  | .ok doc => if s.id = t.id then { s with last_hash := some (hash (normalize_html doc)) } else s
  | .error _ => s

/-- Cumulative effect of a whole batch on one stored site row. -/
def batch_update (hash : List Char → String) (fetchf : String → Except String Doc)
    (sites : List Site) (s : Site) : Site :=
  sites.foldl (fun a t => single_update hash fetchf t a) s

/-- An event trace in which every notification for a site is preceded by that
site's database commit. -/
def commitBeforeNotify (evs : List Event) : Prop :=
  ∀ i m pre post, evs = pre ++ Event.notified i m :: post → Event.committed i ∈ pre

/-- A query-parameter value as Streamlit may report it: a single string or a
list of strings. -/
inductive QueryVal where
  | str (s : String)
  | list (vs : List String)
deriving Repr, DecidableEq

/-- The `_get_val` helper of `is_cron_request`: normalise a parameter to a
list of values (`[]` when absent). -/
def get_val (params : String → Option QueryVal) (key : String) : List String :=
  match params key with
  | some (.list vs) => vs
  | some (.str s) => [s]
  | none => []

/-- `is_cron_request()` from the source: the `cron` parameter must hold one of
`"1"`, `"true"`, `"True"`, and, unless `CRON_KEY` is empty, the `key`
parameter must contain the exact configured secret. -/
def is_cron_request (CRON_KEY : String) (params : String → Option QueryVal) : Bool :=
  let cron_vals := get_val params "cron"
  let key_vals := get_val params "key"
  let is_cron := cron_vals.any (fun v => v = "1" || v = "true" || v = "True")
  let key_ok := (CRON_KEY = "") || key_vals.contains CRON_KEY
  is_cron && key_ok

/-- Modelled from the spec: "an inbound request is an automated trigger iff it
carries a truthy trigger indicator AND (no shared secret is configured OR the
request supplies the exact configured secret)" — the truthy trigger values
are the ones the source accepts. -/
def isAutomatedTriggerSpec (secret : String) (params : String → Option QueryVal) : Prop :=
  (∃ v ∈ get_val params "cron", v = "1" ∨ v = "true" ∨ v = "True") ∧
  (secret = "" ∨ secret ∈ get_val params "key")

/-- Observable effect of one `send_telegram_message` call: whether an HTTP
post was attempted, and what (if anything) was printed to the logs. -/
structure TelegramEffect where
  attempted : Bool
  logged : Option String
deriving Repr, DecidableEq

/-- `send_telegram_message(message)` from the source.  `post` models
`requests.post(...)` followed by `raise_for_status()` on the message's
payload: success or an exception description.  The returned `Except` layer
models exceptions escaping to the caller; the `try/except` around the post
means the function always returns `.ok`. -/
def send_telegram_message (token chat_id : String) (post : String → Except String Unit)
    (message : String) : Except String TelegramEffect :=
  if token = "" || chat_id = "" then
    .ok ⟨false, none⟩
  else
    match post message with
    | .ok _ => .ok ⟨true, none⟩
    | .error e => .ok ⟨true, some ("Error sending Telegram message: " ++ e)⟩

/-- Outcome message of the add-site form handler. -/
inductive AddMsg where
  | missing_url
  | added
  | duplicate
deriving Repr, DecidableEq

/-- The add-site form handler in `render_dashboard`: reject an empty URL,
otherwise insert `(url.strip(), description.strip() or None, now)` with
`last_hash = NULL` and `enabled = 1`; the UNIQUE constraint on `url` turns an
exact duplicate into an `IntegrityError`, leaving the store unchanged. -/
def add_site (st : Store) (next_id : Nat) (now url description : String) :
    AddMsg × Store :=
  if url = "" then (.missing_url, st)
  else
    let u := pyStripS url
    let d := pyStripS description
    if st.sites.any (fun s => s.url = u) then (.duplicate, st)
    else
      (.added,
       { st with sites := st.sites ++
          [⟨next_id, u, if d = "" then none else some d, none, true, now⟩] })

/-- The summary line of `render_cron_page`: counts over the batch results with
Python truthiness (`if changed`, `if err`). -/
def cron_summary (results : List (Nat × String × Bool × Option String)) : String :=
  "Done. Changed: " ++ toString (results.countP (fun r => r.2.2.1)) ++
  ", Errors: " ++ toString (results.countP (fun r => pyTruthyStrOpt r.2.2.2))

/-- `render_cron_page()` from the source: run the batch and render the
summary line. -/
def render_cron_page (hash : List Char → String) (fetchf : String → Except String Doc)
    (now : String) (st : Store) : String :=
  cron_summary (run_all_checks hash fetchf now st).1

/-- Modelled from the spec: the summary line with `M` counting every
processed site whose outcome carries an error (any non-null error value). -/
def cron_summary_claimed (results : List (Nat × String × Bool × Option String)) : String :=
  "Done. Changed: " ++ toString (results.countP (fun r => r.2.2.1)) ++
  ", Errors: " ++ toString (results.countP (fun r => r.2.2.2.isSome))

/-- Does this event notify the given site? -/
def isNotifyFor (i : Nat) : Event → Bool
  | .notified j _ => j == i
  | .committed _ => false

/-! ### Lemmas about whitespace splitting -/

theorem splitW_all_space {t : List Char} (ht : ∀ c ∈ t, pySpace c = true) :
    splitW t = [] := by
  induction t with
  | nil => rfl
  | cons c cs ih =>
    have hc := ht c (by simp)
    simp only [splitW, hc, if_true]
    exact ih fun d hd => ht d (by simp [hd])

theorem splitW_cons_of_not_space {c : Char} (hc : pySpace c = false) (cs : List Char) :
    splitW (c :: cs) =
      (c :: cs.takeWhile (fun d => !pySpace d)) ::
        splitW (cs.dropWhile (fun d => !pySpace d)) := by
  induction cs generalizing c with
  | nil => simp [splitW, hc]
  | cons d cs' ih =>
    by_cases hd : pySpace d = true
    · simp [splitW, hc, hd]
    · have hd' : pySpace d = false := by simpa using hd
      have hmain : splitW (c :: d :: cs') =
          match splitW (d :: cs') with
          | [] => [[c]]
          | w :: ws => (c :: w) :: ws := by
        simp [splitW, hc, hd']
      rw [hmain, ih hd']
      simp [List.takeWhile_cons, List.dropWhile_cons, hd']

theorem takeWhile_all {p : Char → Bool} {l : List Char} (h : ∀ c ∈ l, p c = true) :
    l.takeWhile p = l := by
  induction l with
  | nil => rfl
  | cons c cs ih =>
    simp [List.takeWhile_cons, h c (by simp), ih fun d hd => h d (by simp [hd])]

theorem dropWhile_all {p : Char → Bool} {l : List Char} (h : ∀ c ∈ l, p c = true) :
    l.dropWhile p = [] := by
  induction l with
  | nil => rfl
  | cons c cs ih =>
    simp [List.dropWhile_cons, h c (by simp), ih fun d hd => h d (by simp [hd])]

theorem takeWhile_append_stop {p : Char → Bool} {l : List Char} {x : Char}
    (hl : ∀ c ∈ l, p c = true) (hx : p x = false) (r : List Char) :
    (l ++ x :: r).takeWhile p = l := by
  induction l with
  | nil => simp [List.takeWhile_cons, hx]
  | cons c cs ih =>
    simp [List.takeWhile_cons, hl c (by simp), ih fun d hd => hl d (by simp [hd])]

theorem dropWhile_append_stop {p : Char → Bool} {l : List Char} {x : Char}
    (hl : ∀ c ∈ l, p c = true) (hx : p x = false) (r : List Char) :
    (l ++ x :: r).dropWhile p = x :: r := by
  induction l with
  | nil => simp [List.dropWhile_cons, hx]
  | cons c cs ih =>
    simp [List.dropWhile_cons, hl c (by simp), ih fun d hd => hl d (by simp [hd])]

theorem takeWhile_append_space {t : List Char} (ht : ∀ c ∈ t, pySpace c = true)
    (s : List Char) :
    (s ++ t).takeWhile (fun d => !pySpace d) = s.takeWhile (fun d => !pySpace d) := by
  induction s with
  | nil =>
    cases t with
    | nil => rfl
    | cons x t' => simp [List.takeWhile_cons, ht x (by simp)]
  | cons c cs ih =>
    by_cases hc : pySpace c = true <;> simp [List.takeWhile_cons, hc, ih]

theorem dropWhile_append_space {t : List Char} (ht : ∀ c ∈ t, pySpace c = true)
    (s : List Char) :
    (s ++ t).dropWhile (fun d => !pySpace d) = s.dropWhile (fun d => !pySpace d) ++ t := by
  induction s with
  | nil =>
    cases t with
    | nil => rfl
    | cons x t' => simp [List.dropWhile_cons, ht x (by simp)]
  | cons c cs ih =>
    by_cases hc : pySpace c = true <;> simp [List.dropWhile_cons, hc, ih]

theorem length_dropWhile_le' (p : Char → Bool) (l : List Char) :
    (l.dropWhile p).length ≤ l.length := by
  induction l with
  | nil => simp
  | cons c cs ih =>
    by_cases hc : p c = true
    · simpa [List.dropWhile_cons, hc] using Nat.le_succ_of_le ih
    · simp [List.dropWhile_cons, hc]

theorem splitW_append_space {t : List Char} (ht : ∀ c ∈ t, pySpace c = true)
    (s : List Char) : splitW (s ++ t) = splitW s := by
  suffices H : ∀ n s, s.length ≤ n → splitW (s ++ t) = splitW s from H s.length s le_rfl
  intro n
  induction n with
  | zero =>
    intro s hs
    have hnil : s = [] := by cases s <;> simp_all
    subst hnil
    simpa using splitW_all_space ht
  | succ n ih =>
    intro s hs
    match s with
    | [] => simpa using splitW_all_space ht
    | c :: s' =>
      by_cases hc : pySpace c = true
      · simp only [List.cons_append, splitW, hc, if_true]
        exact ih s' (Nat.le_of_succ_le_succ hs)
      · have hc' : pySpace c = false := by simpa using hc
        rw [List.cons_append, splitW_cons_of_not_space hc', splitW_cons_of_not_space hc',
          takeWhile_append_space ht, dropWhile_append_space ht]
        have hlen : (s'.dropWhile fun d => !pySpace d).length ≤ n :=
          le_trans (length_dropWhile_le' _ s') (Nat.le_of_succ_le_succ hs)
        rw [ih _ hlen]

theorem splitW_dropWhile_space (s : List Char) :
    splitW (s.dropWhile pySpace) = splitW s := by
  induction s with
  | nil => rfl
  | cons c cs ih =>
    by_cases hc : pySpace c = true
    · rw [List.dropWhile_cons]
      simp only [hc, if_true]
      rw [ih]
      simp [splitW, hc]
    · simp [List.dropWhile_cons, hc]

theorem splitW_pyStrip (s : List Char) : splitW (pyStrip s) = splitW s := by
  unfold pyStrip
  have h1 : splitW (s.dropWhile pySpace) = splitW s := splitW_dropWhile_space s
  set u := s.dropWhile pySpace with hu
  have hdecomp : (u.reverse.dropWhile pySpace).reverse ++ (u.reverse.takeWhile pySpace).reverse = u := by
    rw [← List.reverse_append, List.takeWhile_append_dropWhile, List.reverse_reverse]
  have hsp : ∀ c ∈ (u.reverse.takeWhile pySpace).reverse, pySpace c = true := by
    intro c hcmem
    exact List.mem_takeWhile_imp (List.mem_reverse.mp hcmem)
  calc splitW (u.reverse.dropWhile pySpace).reverse
      = splitW ((u.reverse.dropWhile pySpace).reverse ++ (u.reverse.takeWhile pySpace).reverse) :=
        (splitW_append_space hsp _).symm
    _ = splitW u := by rw [hdecomp]
    _ = splitW s := h1

theorem splitW_joinSep : ∀ ws : List (List Char),
    (∀ w ∈ ws, w ≠ [] ∧ ∀ c ∈ w, pySpace c = false) → splitW (joinSep ws) = ws := by
  intro ws
  induction ws with
  | nil => intro _; rfl
  | cons w ws ih =>
    intro h
    obtain ⟨hw, hwc⟩ := h w (by simp)
    match w, hw with
    | c :: w', _ =>
      have hc : pySpace c = false := hwc c (by simp)
      have hw' : ∀ d ∈ w', (fun d => !pySpace d) d = true := by
        intro d hd
        simp [hwc d (by simp [hd])]
      cases ws with
      | nil =>
        rw [show joinSep [c :: w'] = c :: w' from rfl, splitW_cons_of_not_space hc,
          takeWhile_all hw', dropWhile_all hw']
        rfl
      | cons w2 rest =>
        have hjoin : joinSep ((c :: w') :: w2 :: rest) = c :: (w' ++ ' ' :: joinSep (w2 :: rest)) := rfl
        rw [hjoin, splitW_cons_of_not_space hc,
          takeWhile_append_stop hw' (by simp [pySpace]) _,
          dropWhile_append_stop hw' (by simp [pySpace]) _]
        have hsp : splitW (' ' :: joinSep (w2 :: rest)) = splitW (joinSep (w2 :: rest)) := by
          simp [splitW, pySpace]
        rw [hsp, ih fun v hv => h v (by simp [hv])]

theorem get_text_single (s : List Char) : get_text [s] = pyStrip s := by
  unfold get_text
  by_cases he : (pyStrip s).isEmpty = true
  · have : pyStrip s = [] := by simpa [List.isEmpty_iff] using he
    simp [this, joinSep]
  · simp only [List.map_cons, List.map_nil, List.filter_cons, List.filter_nil, he]
    simp [joinSep]

/-! ### Lemmas about the check orchestration -/

theorem check_site_fst (hash : List Char → String) (fetchf : String → Except String Doc)
    (now : String) (st : Store) (site : Site) :
    (check_site hash fetchf now st site).1 = site_outcome hash fetchf site := by
  cases hf : fetchf site.url <;> simp [check_site, site_outcome, hf]

theorem check_site_sites (hash : List Char → String) (fetchf : String → Except String Doc)
    (now : String) (st : Store) (site : Site) :
    (check_site hash fetchf now st site).2.sites = st.sites.map (single_update hash fetchf site) := by
  cases hf : fetchf site.url
  · simp only [check_site, hf]
    exact (List.map_id st.sites).symm.trans (by
      apply List.map_congr_left
      intro s _
      simp [single_update, hf])
  · simp only [check_site, hf, update_last_hash]
    apply List.map_congr_left
    intro s _
    simp [single_update, hf]

theorem check_site_checks (hash : List Char → String) (fetchf : String → Except String Doc)
    (now : String) (st : Store) (site : Site) :
    (check_site hash fetchf now st site).2.checks =
      st.checks ++ [record_of hash fetchf now site] := by
  cases hf : fetchf site.url <;> simp [check_site, record_of, site_outcome, hf]

theorem run_loop_results (hash : List Char → String) (fetchf : String → Except String Doc)
    (now : String) : ∀ (sites : List Site) (st : Store),
    (run_loop hash fetchf now sites st).1 = sites.map (result_of hash fetchf) := by
  intro sites
  induction sites with
  | nil => intro st; rfl
  | cons t rest ih =>
    intro st
    simp only [run_loop, List.map_cons]
    rw [ih]
    congr 1
    rw [check_site_fst]
    rfl

theorem run_loop_sites (hash : List Char → String) (fetchf : String → Except String Doc)
    (now : String) : ∀ (sites : List Site) (st : Store),
    (run_loop hash fetchf now sites st).2.1.sites =
      st.sites.map (batch_update hash fetchf sites) := by
  intro sites
  induction sites with
  | nil =>
    intro st
    simp only [run_loop, batch_update, List.foldl_nil]
    exact (List.map_id st.sites).symm
  | cons t rest ih =>
    intro st
    simp only [run_loop]
    rw [ih, check_site_sites, List.map_map]
    apply List.map_congr_left
    intro s _
    simp [batch_update, List.foldl_cons, Function.comp]

theorem run_loop_checks (hash : List Char → String) (fetchf : String → Except String Doc)
    (now : String) : ∀ (sites : List Site) (st : Store),
    (run_loop hash fetchf now sites st).2.1.checks =
      st.checks ++ sites.map (record_of hash fetchf now) := by
  intro sites
  induction sites with
  | nil => intro st; simp [run_loop]
  | cons t rest ih =>
    intro st
    simp only [run_loop]
    rw [ih, check_site_checks]
    simp

theorem run_loop_events (hash : List Char → String) (fetchf : String → Except String Doc)
    (now : String) : ∀ (sites : List Site) (st : Store),
    (run_loop hash fetchf now sites st).2.2 = sites.flatMap (events_of hash fetchf) := by
  intro sites
  induction sites with
  | nil => intro st; rfl
  | cons t rest ih =>
    intro st
    simp only [run_loop, List.flatMap_cons]
    rw [ih]
    congr 1
    rw [check_site_fst]
    by_cases hch : (site_outcome hash fetchf t).1 = true <;> simp [events_of, hch]

theorem batch_update_id (hash : List Char → String) (fetchf : String → Except String Doc) :
    ∀ (sites : List Site) (s : Site), (batch_update hash fetchf sites s).id = s.id := by
  intro sites
  induction sites with
  | nil => intro s; rfl
  | cons t rest ih =>
    intro s
    rw [batch_update, List.foldl_cons]
    have h1 : (single_update hash fetchf t s).id = s.id := by
      cases hf : fetchf t.url with
      | error e => simp [single_update, hf]
      | ok doc =>
        simp only [single_update, hf]
        split <;> simp
    rw [show List.foldl (fun a u => single_update hash fetchf u a)
          (single_update hash fetchf t s) rest =
        batch_update hash fetchf rest (single_update hash fetchf t s) from rfl, ih, h1]

theorem batch_update_skip (hash : List Char → String) (fetchf : String → Except String Doc) :
    ∀ (sites : List Site) (s : Site), (∀ t ∈ sites, t.id ≠ s.id) →
      batch_update hash fetchf sites s = s := by
  intro sites
  induction sites with
  | nil => intro s _; rfl
  | cons t rest ih =>
    intro s h
    rw [batch_update, List.foldl_cons]
    have h1 : single_update hash fetchf t s = s := by
      cases hf : fetchf t.url with
      | error e => simp [single_update, hf]
      | ok doc =>
        simp only [single_update, hf]
        have hne : ¬s.id = t.id := fun hh => h t (by simp) hh.symm
        simp [hne]
    rw [h1]
    exact ih s fun u hu => h u (by simp [hu])

theorem batch_update_fail_skip (hash : List Char → String) (fetchf : String → Except String Doc) :
    ∀ (sites : List Site) (s : Site),
      (∀ t ∈ sites, t.id = s.id → ∃ e, fetchf t.url = .error e) →
      batch_update hash fetchf sites s = s := by
  intro sites
  induction sites with
  | nil => intro s _; rfl
  | cons t rest ih =>
    intro s h
    rw [batch_update, List.foldl_cons]
    have h1 : single_update hash fetchf t s = s := by
      by_cases hid : t.id = s.id
      · obtain ⟨e, he⟩ := h t (by simp) hid
        simp [single_update, he]
      · cases hf : fetchf t.url with
        | error e => simp [single_update, hf]
        | ok doc =>
          simp only [single_update, hf]
          have hne : ¬s.id = t.id := fun hh => hid hh.symm
          simp [hne]
    rw [h1]
    exact ih s fun u hu => h u (by simp [hu])

theorem batch_update_set (hash : List Char → String) (fetchf : String → Except String Doc)
    (pre post : List Site) (t s : Site) (doc : Doc)
    (hid : t.id = s.id) (hok : fetchf t.url = .ok doc)
    (hpost : ∀ u ∈ post, u.id ≠ s.id) :
    (batch_update hash fetchf (pre ++ t :: post) s).last_hash =
      some (hash (normalize_html doc)) := by
  rw [batch_update, List.foldl_append, List.foldl_cons]
  have hs1 : (List.foldl (fun a u => single_update hash fetchf u a) s pre).id = s.id :=
    batch_update_id hash fetchf pre s
  set s1 := List.foldl (fun a u => single_update hash fetchf u a) s pre with hs1def
  have h2 : single_update hash fetchf t s1 = { s1 with last_hash := some (hash (normalize_html doc)) } := by
    simp [single_update, hok, hs1, hid.symm]
  rw [h2]
  have h3 : batch_update hash fetchf post { s1 with last_hash := some (hash (normalize_html doc)) } =
      { s1 with last_hash := some (hash (normalize_html doc)) } := by
    apply batch_update_skip
    intro u hu
    simpa [hs1] using hpost u hu
  exact congrArg Site.last_hash h3

theorem countP_flatMap {α β : Type} (p : β → Bool) (f : α → List β) (l : List α) :
    (l.flatMap f).countP p = (l.map fun a => (f a).countP p).sum := by
  induction l with
  | nil => rfl
  | cons a l ih => simp [List.flatMap_cons, List.countP_append, ih]

theorem countP_events_of_ne (hash : List Char → String) (fetchf : String → Except String Doc)
    (i : Nat) (t : Site) (h : t.id ≠ i) :
    (events_of hash fetchf t).countP (isNotifyFor i) = 0 := by
  by_cases hc : (site_outcome hash fetchf t).1 = true <;>
    simp [events_of, hc, isNotifyFor, List.countP_cons, h]

theorem countP_events_of_self (hash : List Char → String) (fetchf : String → Except String Doc)
    (t : Site) :
    (events_of hash fetchf t).countP (isNotifyFor t.id) =
      if (site_outcome hash fetchf t).1 then 1 else 0 := by
  by_cases hc : (site_outcome hash fetchf t).1 = true <;>
    simp [events_of, hc, isNotifyFor, List.countP_cons]

theorem commitBeforeNotify_nil : commitBeforeNotify [] := by
  intro i m pre post h
  exact absurd h (by simp)

theorem commitBeforeNotify_cons_commit (j : Nat) (evs : List Event)
    (h : commitBeforeNotify evs) : commitBeforeNotify (Event.committed j :: evs) := by
  intro i m pre post heq
  cases pre with
  | nil => simp at heq
  | cons ev pre' =>
    simp only [List.cons_append, List.cons.injEq] at heq
    obtain ⟨hev, heq'⟩ := heq
    exact List.mem_cons_of_mem _ (h i m pre' post heq')

theorem commitBeforeNotify_cons_self (j : Nat) (m0 : String) (evs : List Event)
    (h : commitBeforeNotify evs) :
    commitBeforeNotify (Event.committed j :: Event.notified j m0 :: evs) := by
  intro i m pre post heq
  cases pre with
  | nil => simp at heq
  | cons ev pre' =>
    simp only [List.cons_append, List.cons.injEq] at heq
    obtain ⟨hev, heq'⟩ := heq
    subst hev
    cases pre' with
    | nil =>
      simp only [List.nil_append, List.cons.injEq, Event.notified.injEq] at heq'
      obtain ⟨⟨hj, _⟩, _⟩ := heq'
      simp [hj]
    | cons ev2 pre'' =>
      simp only [List.cons_append, List.cons.injEq] at heq'
      obtain ⟨hev2, heq''⟩ := heq'
      have hmem := h i m pre'' post heq''
      exact List.mem_cons_of_mem _ (List.mem_cons_of_mem _ hmem)

theorem commitBeforeNotify_flatMap (hash : List Char → String)
    (fetchf : String → Except String Doc) (sites : List Site) :
    commitBeforeNotify (sites.flatMap (events_of hash fetchf)) := by
  induction sites with
  | nil => exact commitBeforeNotify_nil
  | cons t rest ih =>
    rw [List.flatMap_cons]
    by_cases hc : (site_outcome hash fetchf t).1 = true
    · simp only [events_of, hc, if_true, List.cons_append, List.singleton_append]
      exact commitBeforeNotify_cons_self _ _ _ ih
    · have hc' : (site_outcome hash fetchf t).1 = false := by simpa using hc
      simp only [events_of, hc', Bool.false_eq_true, if_false, List.cons_append, List.nil_append]
      exact commitBeforeNotify_cons_commit _ _ ih

/-! ### Claim theorems -/

/-- **C7**: Normalization is idempotent: a string that is already canonical
(markup-free — a single text fragment — consisting of non-empty whitespace-free
words joined by single spaces) is returned unchanged by `normalize_html`; and
any two documents that differ only in whitespace runs or in markup structure
that does not affect the extracted word sequence normalize to identical
output. -/
theorem normalize_idempotent_and_whitespace_insensitive :
    (∀ ws : List (List Char), (∀ w ∈ ws, w ≠ [] ∧ ∀ c ∈ w, pySpace c = false) →
      normalize_html [joinSep ws] = joinSep ws) ∧
    (∀ d1 d2 : Doc, splitW (get_text d1) = splitW (get_text d2) →
      normalize_html d1 = normalize_html d2) := by
  constructor
  · intro ws hws
    unfold normalize_html
    rw [get_text_single, splitW_pyStrip, splitW_joinSep ws hws]
  · intro d1 d2 h
    unfold normalize_html
    rw [h]

theorem normalize_idempotent_and_whitespace_insensitive_witness :
    normalize_html [['a', ' ', 'b']] = ['a', ' ', 'b'] ∧
    normalize_html [['a', '\n', '\n', 'b']] = normalize_html [['a', ' ', 'b']] :=
  ⟨normalize_idempotent_and_whitespace_insensitive.1 [['a'], ['b']] (by decide),
   normalize_idempotent_and_whitespace_insensitive.2
     [['a', '\n', '\n', 'b']] [['a', ' ', 'b']] (by decide)⟩

/-- **C2**: For a site with no stored fingerprint, a successful check yields
`changed = false` whatever the fetched content, and afterwards every stored
row with that site's id carries the digest of the newly normalized content. -/
theorem baseline_first_check (hash : List Char → String)
    (fetchf : String → Except String Doc) (now : String) (st : Store)
    (site : Site) (doc : Doc)
    (hnone : site.last_hash = none) (hfetch : fetchf site.url = .ok doc) :
    (check_site hash fetchf now st site).1 =
      (false, none, some (hash (normalize_html doc))) ∧
    ∀ s' ∈ (check_site hash fetchf now st site).2.sites, s'.id = site.id →
      s'.last_hash = some (hash (normalize_html doc)) := by
  constructor
  · rw [check_site_fst]
    simp [site_outcome, hfetch, hnone]
  · intro s' hs' hid
    rw [check_site_sites] at hs'
    obtain ⟨s, hs, rfl⟩ := List.mem_map.mp hs'
    simp only [single_update, hfetch] at hid ⊢
    by_cases h : s.id = site.id
    · simp [h]
    · simp only [h, if_false] at hid

theorem baseline_first_check_witness :
    (check_site (fun l => String.mk l) (fun _ => .ok [['x']]) "T"
        ⟨[⟨1, "u", none, none, true, "t"⟩], []⟩ ⟨1, "u", none, none, true, "t"⟩).1 =
      (false, none, some (String.mk (normalize_html [['x']]))) ∧
    ∀ s' ∈ (check_site (fun l => String.mk l) (fun _ => .ok [['x']]) "T"
        ⟨[⟨1, "u", none, none, true, "t"⟩], []⟩ ⟨1, "u", none, none, true, "t"⟩).2.sites,
      s'.id = 1 → s'.last_hash = some (String.mk (normalize_html [['x']])) :=
  baseline_first_check (fun l => String.mk l) (fun _ => .ok [['x']]) "T"
    ⟨[⟨1, "u", none, none, true, "t"⟩], []⟩ ⟨1, "u", none, none, true, "t"⟩ [['x']]
    rfl rfl

/-- **C4**: A batch appends exactly one record per processed site, and an
appended record with `changed = true` always has a null error: the success
path writes `error = none` and the failure path writes `changed = false`, so
`changed = true` never co-occurs with a non-null error. -/
theorem changed_never_with_error (hash : List Char → String)
    (fetchf : String → Except String Doc) (now : String) (st : Store) :
    (run_all_checks hash fetchf now st).2.1.checks =
      st.checks ++ (st.sites.filter (·.enabled)).map (record_of hash fetchf now) ∧
    ∀ site : Site, (record_of hash fetchf now site).changed = true →
      (record_of hash fetchf now site).error = none := by
  constructor
  · exact run_loop_checks hash fetchf now _ st
  · intro site h
    cases hf : fetchf site.url with
    | error e => simp [record_of, site_outcome, hf] at h
    | ok doc => simp [record_of, site_outcome, hf]

theorem changed_never_with_error_witness :
    (record_of (fun _ => "h") (fun _ => .ok [['x']]) "T"
      ⟨1, "u", none, some "g", true, "t"⟩).error = none :=
  (changed_never_with_error (fun _ => "h") (fun _ => .ok [['x']]) "T" ⟨[], []⟩).2
    ⟨1, "u", none, some "g", true, "t"⟩ (by decide)

/-- **C8**: `send_telegram_message` never raises to its caller (it always
returns `.ok`), is a silent no-op when the bot token or chat id is
unconfigured, and on a transport failure only logs the error. -/
theorem notifier_never_raises (token chat_id : String)
    (post : String → Except String Unit) (message : String) :
    (send_telegram_message token chat_id post message).isOk = true ∧
    ((token = "" ∨ chat_id = "") →
      send_telegram_message token chat_id post message = .ok ⟨false, none⟩) ∧
    (∀ e, token ≠ "" → chat_id ≠ "" → post message = .error e →
      send_telegram_message token chat_id post message =
        .ok ⟨true, some ("Error sending Telegram message: " ++ e)⟩) := by
  refine ⟨?_, ?_, ?_⟩
  · by_cases h1 : token = ""
    · simp [send_telegram_message, h1, Except.isOk, Except.toBool]
    · by_cases h2 : chat_id = ""
      · simp [send_telegram_message, h1, h2, Except.isOk, Except.toBool]
      · cases hp : post message <;> simp [send_telegram_message, h1, h2, hp, Except.isOk, Except.toBool]
  · intro h
    rcases h with h | h <;> simp [send_telegram_message, h]
  · intro e h1 h2 hp
    simp [send_telegram_message, h1, h2, hp]

theorem notifier_never_raises_witness :
    send_telegram_message "tok" "chat" (fun _ => .error "boom") "msg" =
      .ok ⟨true, some ("Error sending Telegram message: " ++ "boom")⟩ :=
  (notifier_never_raises "tok" "chat" (fun _ => .error "boom") "msg").2.2 "boom"
    (by decide) (by decide) rfl

/-- **C5**: A request is classified as an automated trigger exactly when it
carries a truthy `cron` value and either no secret is configured or the exact
configured secret is supplied; with an empty configured secret, any request
with the trigger flag set is treated as automated. -/
theorem trigger_gating (S : String) (params : String → Option QueryVal) :
    (is_cron_request S params = true ↔ isAutomatedTriggerSpec S params) ∧
    (S = "" → (∃ v ∈ get_val params "cron", v = "1" ∨ v = "true" ∨ v = "True") →
      is_cron_request S params = true) := by
  have hmain : is_cron_request S params = true ↔ isAutomatedTriggerSpec S params := by
    unfold is_cron_request isAutomatedTriggerSpec
    rw [Bool.and_eq_true, Bool.or_eq_true, List.any_eq_true]
    constructor
    · rintro ⟨⟨v, hv, hvv⟩, hkey⟩
      refine ⟨⟨v, hv, ?_⟩, ?_⟩
      · simpa [Bool.or_eq_true, decide_eq_true_iff, or_assoc] using hvv
      · rcases hkey with hk | hk
        · exact Or.inl (by simpa [decide_eq_true_iff] using hk)
        · exact Or.inr (List.elem_iff.mp hk)
    · rintro ⟨⟨v, hv, hvv⟩, hkey⟩
      refine ⟨⟨v, hv, ?_⟩, ?_⟩
      · simpa [Bool.or_eq_true, decide_eq_true_iff, or_assoc] using hvv
      · rcases hkey with hk | hk
        · exact Or.inl (by simpa [decide_eq_true_iff] using hk)
        · exact Or.inr (List.elem_iff.mpr hk)
  refine ⟨hmain, ?_⟩
  intro hS htrig
  exact hmain.mpr ⟨htrig, Or.inl hS⟩

theorem trigger_gating_witness :
    is_cron_request "" (fun k => if k = "cron" then some (.str "1") else none) = true :=
  (trigger_gating "" (fun k => if k = "cron" then some (.str "1") else none)).2
    rfl ⟨"1", by simp [get_val], Or.inl rfl⟩

/-- **C9**: In the event trace of `run_all_checks`, every notification for a
site is preceded by that site's committed check outcome (fingerprint
overwrite and record append happen inside `check_site`, before the notifier
is called); the notifier is given no access to the store, so its behavior
cannot alter the recorded outcome. -/
theorem outcome_committed_before_notification (hash : List Char → String)
    (fetchf : String → Except String Doc) (now : String) (st : Store) :
    commitBeforeNotify (run_all_checks hash fetchf now st).2.2 := by
  rw [show (run_all_checks hash fetchf now st).2.2 =
      (st.sites.filter (·.enabled)).flatMap (events_of hash fetchf) from
    run_loop_events hash fetchf now _ st]
  exact commitBeforeNotify_flatMap hash fetchf _

theorem outcome_committed_before_notification_witness :
    Event.committed 1 ∈ [Event.committed 1] :=
  outcome_committed_before_notification (fun l => String.mk l) (fun _ => .ok [['n']]) "T"
    ⟨[⟨1, "u", none, some "old", true, "t"⟩], []⟩ 1
    (changed_message ⟨1, "u", none, some "old", true, "t"⟩)
    [Event.committed 1] [] (by decide)

/-- **C10**: Site creation stores the address stripped of surrounding
whitespace and a whitespace-only or empty label as absent; and creating a
site whose address differs from an existing (stripped) stored address only by
surrounding whitespace is rejected as a duplicate without changing the
store. -/
theorem add_site_strips_and_rejects_duplicates (st : Store) (nid : Nat)
    (now url desc : String) :
    ((url ≠ "") → (∀ s ∈ st.sites, s.url ≠ pyStripS url) →
      add_site st nid now url desc =
        (.added, { st with sites := st.sites ++
          [⟨nid, pyStripS url,
            if pyStripS desc = "" then none else some (pyStripS desc),
            none, true, now⟩] })) ∧
    (∀ s0 ∈ st.sites, url ≠ "" → pyStripS url = s0.url →
      add_site st nid now url desc = (.duplicate, st)) := by
  constructor
  · intro hne hnodup
    have hany : st.sites.any (fun s => s.url = pyStripS url) = false := by
      rw [Bool.eq_false_iff]
      intro hc
      obtain ⟨s, hs, hss⟩ := List.any_eq_true.mp hc
      exact hnodup s hs (by simpa [decide_eq_true_iff] using hss)
    simp [add_site, hne, hany]
  · intro s0 hs0 hne hdup
    have hany : st.sites.any (fun s => s.url = pyStripS url) = true :=
      List.any_eq_true.mpr ⟨s0, hs0, by simp [hdup]⟩
    simp [add_site, hne, hany]

theorem add_site_strips_and_rejects_duplicates_witness :
    add_site ⟨[⟨1, "u", none, none, true, "t"⟩], []⟩ 2 "T" " u " "d" =
      (.duplicate, ⟨[⟨1, "u", none, none, true, "t"⟩], []⟩) :=
  (add_site_strips_and_rejects_duplicates ⟨[⟨1, "u", none, none, true, "t"⟩], []⟩
      2 "T" " u " "d").2 ⟨1, "u", none, none, true, "t"⟩ (by decide) (by decide) (by decide)

/-- **C1**: For a site stored with fingerprint `H1`, a successful check whose
normalized text hashes to `H2` produces the result entry
`(id, url, H2 != H1, none)`, leaves every stored row with that id carrying
`some H2`, and the batch notifies that site exactly once when `H2 != H1` and
never when `H2 = H1`. -/
theorem change_detection_and_single_notification (hash : List Char → String)
    (fetchf : String → Except String Doc) (now : String) (st : Store)
    (site : Site) (doc : Doc) (H1 H2 : String)
    (hnodup : (st.sites.map (·.id)).Nodup)
    (hmem : site ∈ st.sites) (hen : site.enabled = true)
    (hH1 : site.last_hash = some H1)
    (hfetch : fetchf site.url = .ok doc)
    (hH2 : hash (normalize_html doc) = H2) :
    (site.id, site.url, decide (H2 ≠ H1), (none : Option String)) ∈
      (run_all_checks hash fetchf now st).1 ∧
    (∀ s' ∈ (run_all_checks hash fetchf now st).2.1.sites, s'.id = site.id →
      s'.last_hash = some H2) ∧
    (run_all_checks hash fetchf now st).2.2.countP (isNotifyFor site.id) =
      (if H2 = H1 then 0 else 1) := by
  have hsnap_mem : site ∈ st.sites.filter (·.enabled) :=
    List.mem_filter.mpr ⟨hmem, by simpa using hen⟩
  have hsnap_nodup : ((st.sites.filter (·.enabled)).map (·.id)).Nodup :=
    List.Nodup.sublist (List.Sublist.map (·.id) (List.filter_sublist st.sites)) hnodup
  have houtcome : site_outcome hash fetchf site = (decide (H2 ≠ H1), none, some H2) := by
    simp [site_outcome, hfetch, hH1, hH2]
  obtain ⟨pre, post, hdecomp⟩ := List.append_of_mem hsnap_mem
  have hmap_nodup : ((pre ++ site :: post).map (·.id)).Nodup := hdecomp ▸ hsnap_nodup
  rw [List.map_append, List.map_cons] at hmap_nodup
  have hparts := List.nodup_append.mp hmap_nodup
  have hpost_ne : ∀ u ∈ post, u.id ≠ site.id := by
    intro u hu hequ
    exact (List.nodup_cons.mp hparts.2.1).1 (List.mem_map.mpr ⟨u, hu, hequ⟩)
  have hpre_ne : ∀ u ∈ pre, u.id ≠ site.id := by
    intro u hu hequ
    exact hparts.2.2 (List.mem_map.mpr ⟨u, hu, hequ⟩) (by simp)
  refine ⟨?_, ?_, ?_⟩
  · rw [show (run_all_checks hash fetchf now st).1 =
        (st.sites.filter (·.enabled)).map (result_of hash fetchf) from
      run_loop_results hash fetchf now _ st]
    refine List.mem_map.mpr ⟨site, hsnap_mem, ?_⟩
    simp [result_of, houtcome]
  · intro s' hs' hid
    rw [show (run_all_checks hash fetchf now st).2.1.sites =
        st.sites.map (batch_update hash fetchf (st.sites.filter (·.enabled))) from
      run_loop_sites hash fetchf now _ st] at hs'
    obtain ⟨s, hs, rfl⟩ := List.mem_map.mp hs'
    rw [batch_update_id] at hid
    have hseq : s = site := List.inj_on_of_nodup_map hnodup hs hmem hid
    subst hseq
    rw [hdecomp, ← hH2]
    exact batch_update_set hash fetchf pre post s s doc rfl hfetch hpost_ne
  · rw [show (run_all_checks hash fetchf now st).2.2 =
        (st.sites.filter (·.enabled)).flatMap (events_of hash fetchf) from
      run_loop_events hash fetchf now _ st]
    rw [countP_flatMap, hdecomp]
    simp only [List.map_append, List.map_cons, List.sum_append, List.sum_cons]
    have hzpre : (pre.map fun t => (events_of hash fetchf t).countP (isNotifyFor site.id)).sum = 0 := by
      apply List.sum_eq_zero
      intro x hx
      obtain ⟨t, ht, rfl⟩ := List.mem_map.mp hx
      exact countP_events_of_ne hash fetchf site.id t (hpre_ne t ht)
    have hzpost : (post.map fun t => (events_of hash fetchf t).countP (isNotifyFor site.id)).sum = 0 := by
      apply List.sum_eq_zero
      intro x hx
      obtain ⟨t, ht, rfl⟩ := List.mem_map.mp hx
      exact countP_events_of_ne hash fetchf site.id t (hpost_ne t ht)
    rw [hzpre, hzpost, countP_events_of_self, houtcome]
    by_cases heq : H2 = H1 <;> simp [heq]

def c1Site : Site := ⟨1, "u", none, some "old", true, "t"⟩

def c1Store : Store := ⟨[c1Site], []⟩

def c1Hash : List Char → String := fun l => String.mk l

def c1Fetch : String → Except String Doc := fun _ => .ok [['n', 'e', 'w']]

theorem change_detection_and_single_notification_witness :
    (1, "u", decide (("new" : String) ≠ "old"), (none : Option String)) ∈
      (run_all_checks c1Hash c1Fetch "T" c1Store).1 ∧
    (∀ s' ∈ (run_all_checks c1Hash c1Fetch "T" c1Store).2.1.sites,
      s'.id = 1 → s'.last_hash = some "new") ∧
    (run_all_checks c1Hash c1Fetch "T" c1Store).2.2.countP (isNotifyFor 1) =
      (if ("new" : String) = "old" then 0 else 1) :=
  change_detection_and_single_notification c1Hash c1Fetch "T" c1Store c1Site
    [['n', 'e', 'w']] "old" "new" (by decide) (by decide) rfl rfl rfl (by decide)

/-- **C3**: When one enabled site's fetch fails, the batch appends a record
for it with the error set and `changed = false`, leaves its stored row (and
so its fingerprint) exactly as before the batch, and still produces, for
every site of the enabled snapshot in order, that site's own independent
outcome — no site skipped, none processed twice. -/
theorem failure_isolation (hash : List Char → String)
    (fetchf : String → Except String Doc) (now : String) (st : Store)
    (s0 : Site) (e : String)
    (hnodup : (st.sites.map (·.id)).Nodup)
    (hmem : s0 ∈ st.sites) (hen : s0.enabled = true)
    (hfail : fetchf s0.url = .error e) :
    (⟨s0.id, now, false, some e⟩ : CheckRecord) ∈
      (run_all_checks hash fetchf now st).2.1.checks ∧
    s0 ∈ (run_all_checks hash fetchf now st).2.1.sites ∧
    (∀ s' ∈ (run_all_checks hash fetchf now st).2.1.sites, s'.id = s0.id → s' = s0) ∧
    (run_all_checks hash fetchf now st).1 =
      (st.sites.filter (·.enabled)).map (result_of hash fetchf) := by
  have hsnap_mem : s0 ∈ st.sites.filter (·.enabled) :=
    List.mem_filter.mpr ⟨hmem, by simpa using hen⟩
  have hfailskip : ∀ t ∈ st.sites.filter (·.enabled), t.id = s0.id →
      ∃ e', fetchf t.url = .error e' := by
    intro t ht htid
    have hts : t ∈ st.sites := (List.mem_filter.mp ht).1
    have : t = s0 := List.inj_on_of_nodup_map hnodup hts hmem htid
    exact ⟨e, this ▸ hfail⟩
  refine ⟨?_, ?_, ?_, run_loop_results hash fetchf now _ st⟩
  · rw [show (run_all_checks hash fetchf now st).2.1.checks =
        st.checks ++ (st.sites.filter (·.enabled)).map (record_of hash fetchf now) from
      run_loop_checks hash fetchf now _ st]
    refine List.mem_append.mpr (Or.inr (List.mem_map.mpr ⟨s0, hsnap_mem, ?_⟩))
    simp [record_of, site_outcome, hfail]
  · rw [show (run_all_checks hash fetchf now st).2.1.sites =
        st.sites.map (batch_update hash fetchf (st.sites.filter (·.enabled))) from
      run_loop_sites hash fetchf now _ st]
    refine List.mem_map.mpr ⟨s0, hmem, ?_⟩
    exact batch_update_fail_skip hash fetchf _ s0 hfailskip
  · intro s' hs' hid
    rw [show (run_all_checks hash fetchf now st).2.1.sites =
        st.sites.map (batch_update hash fetchf (st.sites.filter (·.enabled))) from
      run_loop_sites hash fetchf now _ st] at hs'
    obtain ⟨s, hs, rfl⟩ := List.mem_map.mp hs'
    rw [batch_update_id] at hid
    have hseq : s = s0 := List.inj_on_of_nodup_map hnodup hs hmem hid
    subst hseq
    exact batch_update_fail_skip hash fetchf _ s hfailskip

def c3Good : Site := ⟨1, "a", none, none, true, "t"⟩

def c3Bad : Site := ⟨2, "b", none, some "h0", true, "t"⟩

def c3Store : Store := ⟨[c3Good, c3Bad], []⟩

def c3Hash : List Char → String := fun l => String.mk l

def c3Fetch : String → Except String Doc :=
  fun u => if u = "a" then .ok [['x']] else .error "boom"

theorem failure_isolation_witness :
    (⟨2, "T", false, some "boom"⟩ : CheckRecord) ∈
      (run_all_checks c3Hash c3Fetch "T" c3Store).2.1.checks ∧
    c3Bad ∈ (run_all_checks c3Hash c3Fetch "T" c3Store).2.1.sites ∧
    (∀ s' ∈ (run_all_checks c3Hash c3Fetch "T" c3Store).2.1.sites,
      s'.id = 2 → s' = c3Bad) ∧
    (run_all_checks c3Hash c3Fetch "T" c3Store).1 =
      (c3Store.sites.filter (·.enabled)).map (result_of c3Hash c3Fetch) :=
  failure_isolation c3Hash c3Fetch "T" c3Store c3Bad "boom"
    (by decide) (by decide) rfl rfl

def c6Store : Store := ⟨[⟨1, "u", none, none, true, "t"⟩], []⟩

def c6Hash : List Char → String := fun _ => ""

def c6Fetch : String → Except String Doc := fun _ => .error ""

/-- **C6** (counterexample): the cron page counts errors with Python
truthiness, so a site whose fetch fails with an empty error description is
recorded with a non-null error yet not counted: the rendered summary differs
from one whose `M` counts every outcome carrying an error. -/
theorem cron_summary_counterexample :
    render_cron_page c6Hash c6Fetch "T" c6Store ≠
      cron_summary_claimed (run_all_checks c6Hash c6Fetch "T" c6Store).1 := by
  have h1 : render_cron_page c6Hash c6Fetch "T" c6Store = "Done. Changed: 0, Errors: 0" := rfl
  have h2 : cron_summary_claimed (run_all_checks c6Hash c6Fetch "T" c6Store).1 =
      "Done. Changed: 0, Errors: 1" := rfl
  rw [h1, h2]
  decide

/-- **C6** (amended): the automated-trigger response is
`"Done. Changed: <N>, Errors: <M>"` where `N` counts processed sites whose
outcome has `changed = true` and `M` counts processed sites whose outcome's
error is a non-empty string (Python truthiness); a failure recorded with an
empty error description is not counted in `M`. -/
theorem cron_summary_counts (hash : List Char → String)
    (fetchf : String → Except String Doc) (now : String) (st : Store) :
    render_cron_page hash fetchf now st =
      "Done. Changed: " ++
        toString ((st.sites.filter (·.enabled)).countP fun t =>
          (site_outcome hash fetchf t).1) ++
      ", Errors: " ++
        toString ((st.sites.filter (·.enabled)).countP fun t =>
          pyTruthyStrOpt (site_outcome hash fetchf t).2.1) := by
  unfold render_cron_page cron_summary
  rw [show (run_all_checks hash fetchf now st).1 =
      (st.sites.filter (·.enabled)).map (result_of hash fetchf) from
    run_loop_results hash fetchf now _ st]
  rw [List.countP_map, List.countP_map]
  rfl
